import Mathlib

/-!
Shallow embedding of the versioning-score core of `openteams-score`
(`src/versioning/versioning.py` together with the helpers it uses from
`src/utils.py`), and theorems settling the frozen claims about it.

Modelling conventions:
* Python strings are embedded as `List Char` (`Str`); the Python lexicographic
  string comparison is `strLt` (code-point order, shorter prefix is smaller).
* `datetime` values are rationals counting seconds; a missing date (`NaT`,
  `None`) is `none`, so dates are `Option ℚ` and subtraction propagates
  `none`.  `NaN` floats produced by `none_nat2nan`/`np.nanmean` are likewise
  `none : Option ℚ`.
* Real arithmetic is idealised over `ℚ`.  The transcendental
  `logscale(x) = log(1+x)` from `utils.py` is kept abstract: every definition
  that applies it takes it as an explicit function argument `logscale`,
  since none of the verified properties depends on its values.
* `np.round(x, 2)` is embedded as exact half-even rounding at two decimals
  (`round2`).
-/

namespace Versioning

/-- Python strings, embedded as lists of characters. -/
abbrev Str := List Char

/-- The Python `<` on strings: lexicographic comparison by code point,
a strict prefix is smaller. -/
def strLt : Str → Str → Bool
  | [], [] => false
  | [], _ :: _ => true
  | _ :: _, [] => false
  | a :: as, b :: bs => if a < b then true else if b < a then false else strLt as bs

/-- The Python `str.split('.')`: cut at every `'.'`, keeping empty pieces;
the empty string yields `[""]`. -/
def splitDot : Str → List Str
  | [] => [[]]
  | c :: rest =>
    if c = '.' then [] :: splitDot rest
    else
      match splitDot rest with
      | h :: t => (c :: h) :: t
      | [] => [[c]]

/-- The Python `'.'.join(parts)`. -/
def joinDot : List Str → Str
  | [] => []
  | [p] => p
  | p :: ps => p ++ '.' :: joinDot ps

/-- Does `pat` occur at the start of `s`? (`str.startswith`). -/
def isPrefOf : Str → Str → Bool
  | [], _ => true
  | _ :: _, [] => false
  | a :: as, b :: bs => a = b && isPrefOf as bs

/-- Does `pat` occur anywhere inside `s`? (Python `pat in s`). -/
def containsSub (s pat : Str) : Bool :=
  match s with
  | [] => isPrefOf pat []
  | _ :: rest => isPrefOf pat s || containsSub rest pat

/-- The `Release` enum of `versioning.py`. -/
inductive Release
  | MAJOR
  | MINOR
  | PATCH
  | OTHER
  | FIRST
  deriving DecidableEq, Repr

/-- A structural version triple: the result of `_split_version_num`. -/
structure Triple where
  major : Str
  minor : Str
  patch : Str
  deriving DecidableEq, Repr

/-- `Versioning._split_version_num`: split the version string on `'.'`,
pad to three components with `"0"`, and join components 3..n back with
`'.'` into the third slot. -/
def splitVersionNum (num : Str) : Triple :=
  let numParts := splitDot num
  let padded := numParts ++ List.replicate (3 - numParts.length) ['0']
  { major := padded.getD 0 []
    minor := padded.getD 1 []
    patch := joinDot (padded.drop 2) }

/-- `Versioning._find_version_type`: compare the two triples slot by slot,
by string inequality, in major/minor/patch order. -/
def findVersionType (prevNumParts currNumParts : Triple) : Release :=
  if prevNumParts.major ≠ currNumParts.major then Release.MAJOR
  else if prevNumParts.minor ≠ currNumParts.minor then Release.MINOR
  else if prevNumParts.patch ≠ currNumParts.patch then Release.PATCH
  else Release.FIRST

/-- Modelled from the spec: the tokenizer described by cases on the number
of dot-separated components (pad missing trailing components with `"0"`,
join components 3..n into the third slot). Used to state C6. -/
def tokenizeByCases (parts : List Str) : Triple :=
  match parts with
  | [] => { major := [], minor := ['0'], patch := ['0'] }
  | [a] => { major := a, minor := ['0'], patch := ['0'] }
  | [a, b] => { major := a, minor := b, patch := ['0'] }
  | a :: b :: rest => { major := a, minor := b, patch := joinDot rest }

theorem splitDot_ne_nil (s : Str) : splitDot s ≠ [] := by
  cases s with
  | nil => simp [splitDot]
  | cons c rest =>
    simp only [splitDot]
    split
    · simp
    · cases h : splitDot rest <;> simp

/-- C6: for every input string (including the empty one) the tokenizer
returns exactly one well-formed 3-slot triple of strings, obtained by
splitting on `'.'`, padding missing trailing components with `"0"`, and
joining components 3..n with `'.'` into the third slot; it never fails.
(Totality and the fixed 3-slot shape are given by the type of
`splitVersionNum`; the pad/join behaviour is the case analysis below.) -/
theorem c6_split_version_num (s : Str) :
    splitVersionNum s = tokenizeByCases (splitDot s) := by
  have h := splitDot_ne_nil s
  unfold splitVersionNum tokenizeByCases
  match hp : splitDot s with
  | [] => exact absurd hp h
  | [a] => rfl
  | [a, b] => rfl
  | a :: b :: c :: rest => simp [joinDot]

/-- A timeline event, as stored in `Versioning.date_series`:
a `(datetime, Release, version_number)` triplet.  The date is `none`
when the underlying `published_at` is missing (`NaT`). -/
structure Event where
  date : Option ℚ
  kind : Release
  num : Str
  deriving DecidableEq, Repr

/-- The major token of every event of a timeline, in order
(`date[2].split('.')[0]` in `check_parallel_versions`). -/
def majorsOf (series : List Event) : List Str :=
  series.map (fun e => (splitDot e.num).headD [])

/-- The scan loop of `check_parallel_versions`: walk consecutive pairs of
major tokens, count strict (lexical) decreases in `n`, and return `True`
as soon as `n` reaches 3. -/
def checkParallelAux : List Str → Nat → Bool
  | a :: b :: rest, n =>
    if strLt b a then
      if n + 1 ≥ 3 then true else checkParallelAux (b :: rest) (n + 1)
    else checkParallelAux (b :: rest) n
  | _, _ => false

/-- `Versioning.check_parallel_versions`: flag the project when the major
token decreases at least 3 times along the timeline; when flagged, also
return the distinct major tokens (`list(set(majors))`, embedded as
`dedup`). -/
def check_parallel_versions (series : List Event) : Bool × List Str :=
  let majors := majorsOf series
  if checkParallelAux majors 0 then (true, majors.dedup) else (false, [])

/-- Total number of strict lexical decreases between consecutive tokens. -/
def countDec : List Str → Nat
  | a :: b :: rest => (if strLt b a then 1 else 0) + countDec (b :: rest)
  | _ => 0

/-- A row of the per-project release DataFrame, with the fields the
timeline builder reads. -/
structure Row where
  number : Str
  published_at : Option ℚ
  deriving DecidableEq, Repr

/-- Does the version string contain one of the pre-release markers
(`.str.contains("rc|dev|nightly")`)? -/
def hasPreMarker (s : Str) : Bool :=
  containsSub s ("rc".toList) || containsSub s ("dev".toList) ||
    containsSub s ("nightly".toList)

/-- `Versioning._clean_version_data`: drop the rows whose version string
contains a pre-release marker, unless that would drop every row, in which
case the input is returned unchanged. -/
def cleanVersionData (version : List Row) : List Row :=
  let cleaned := version.filter (fun r => !hasPreMarker r.number)
  if cleaned.length > 0 then cleaned else version

/-- Concrete timeline with major tokens 2,1,3,2,3,1 (three decreases). -/
def seriesB : List Event :=
  [⟨none, Release.FIRST, ['2', '.', '0', '.', '1']⟩,
   ⟨none, Release.MAJOR, ['1', '.', '0', '.', '1']⟩,
   ⟨none, Release.MAJOR, ['3', '.', '0', '.', '2']⟩,
   ⟨none, Release.MAJOR, ['2', '.', '0', '.', '3']⟩,
   ⟨none, Release.MAJOR, ['3', '.', '0', '.', '4']⟩,
   ⟨none, Release.MAJOR, ['1', '.', '0', '.', '5']⟩]

/-- `np.round(x)` to an integer: round half to even. -/
def roundHalfEven (q : ℚ) : ℤ :=
  let f := ⌊q⌋
  let r := q - f
  if r < 1 / 2 then f
  else if 1 / 2 < r then f + 1
  else if f % 2 = 0 then f else f + 1

/-- `np.round(x, 2)`: round half to even at two decimals. -/
def round2 (q : ℚ) : ℚ := (roundHalfEven (q * 100) : ℚ) / 100

/-- `utils.s_shape`: `x / (1 + x)`. -/
def s_shape (x : ℚ) : ℚ := x / (1 + x)

/-- `utils.date2days` applied to an optional timedelta (in seconds);
a missing (`NaT`) delta stays missing. -/
def date2days (x : Option ℚ) : Option ℚ := x.map (fun s => s / (3600 * 24))

/-- Subtraction of datetimes: any operand that is `NaT` gives `NaT`. -/
def dsub : Option ℚ → Option ℚ → Option ℚ
  | some a, some b => some (a - b)
  | _, _ => none

/-- `none_nat2nan`: map `0`/`None`/`NaT` to `NaN` (here `none`), keep
anything else. -/
def noneNat2nan : Option ℚ → Option ℚ
  | none => none
  | some x => if x = 0 then none else some x

/-- `np.nanmean`: the arithmetic mean of the defined (non-`NaN`) entries;
`NaN` when there are none. -/
def nanmean (v : List (Option ℚ)) : Option ℚ :=
  let defined := v.filterMap id
  if defined.length = 0 then none else some (defined.sum / defined.length)

/-- One entry of the `means` list of `_meantime_weighted_sum`:
`np.round(np.nanmean(v), 2) if len(v) > 0 else np.nan`. -/
def bucketMean (v : List (Option ℚ)) : Option ℚ :=
  if v.length > 0 then (nanmean v).map round2 else none

/-- One entry of the `components` list of `_meantime_weighted_sum`:
`w / mean` when the bucket mean is defined and non-zero, else `0.0`. -/
def contrib (w : ℚ) (m : Option ℚ) : ℚ :=
  match m with
  | none => 0
  | some v => if v = 0 then 0 else w / v

/-- The `i > 0` part of the loop of `_build_deltatime_series`: the first
argument is `prev_date`; each gap is routed by the kind of the current event. -/
def seqDeltasAux :
    Option ℚ → List Event →
      List (Option ℚ) × List (Option ℚ) × List (Option ℚ)
  | _, [] => ([], [], [])
  | prevDate, e :: rest =>
    let d := noneNat2nan (date2days (dsub e.date prevDate))
    let (M, m, p) := seqDeltasAux e.date rest
    match e.kind with
    | Release.MAJOR => (d :: M, m, p)
    | Release.MINOR => (M, d :: m, p)
    | Release.PATCH => (M, m, d :: p)
    | _ => (M, m, p)

/-- `Versioning._build_deltatime_series`, non-parallel branch: walk the
timeline, gap from the previous event, routed by the current kind. -/
def build_deltatime_series_seq (series : List Event) :
    List (Option ℚ) × List (Option ℚ) × List (Option ℚ) :=
  match series with
  | [] => ([], [], [])
  | e :: rest => seqDeltasAux e.date rest

/-- The `i > 0` iterations of `_get_minor_patch_deltatimes`.  The first
argument embeds the loop variable `prev_num_parts`, which the source assigns only
in the `i == 0` branch, so it stays the triple of the first event throughout;
the next two are `prev_minor_date` and `prev_patch_date`. -/
def getMinorPatchAux :
    Triple → Option ℚ → Option ℚ → List Event →
      List (Option ℚ) × List (Option ℚ)
  | _, _, _, [] => ([], [])
  | fp, mind, patd, e :: rest =>
    let parts := splitVersionNum e.num
    if strLt fp.minor parts.minor then
      (noneNat2nan (date2days (dsub e.date mind)) ::
          (getMinorPatchAux fp e.date e.date rest).1,
        (getMinorPatchAux fp e.date e.date rest).2)
    else if strLt fp.patch parts.patch then
      ((getMinorPatchAux fp mind e.date rest).1,
        noneNat2nan (date2days (dsub e.date patd)) ::
          (getMinorPatchAux fp mind e.date rest).2)
    else
      getMinorPatchAux fp mind patd rest

/-- `Versioning._get_minor_patch_deltatimes`: the sub-timeline walk of one
major-token group. -/
def get_minor_patch_deltatimes (group : List Event) :
    List (Option ℚ) × List (Option ℚ) :=
  match group with
  | [] => ([], [])
  | e :: rest => getMinorPatchAux (splitVersionNum e.num) e.date e.date rest

/-- Cursor state for the fold formulation of the group walk: the fixed
reference triple, the two reference dates, and the gaps collected so far. -/
structure MPState where
  refParts : Triple
  prevMinorDate : Option ℚ
  prevPatchDate : Option ℚ
  minors : List (Option ℚ)
  patches : List (Option ℚ)
  deriving DecidableEq, Repr

/-- One step of the amended group walk: compare the triple of the current
event against the triple of the first event of the group (the reference is never updated);
a minor firing resets both reference dates, a patch firing resets the
patch date. -/
def mpStep (st : MPState) (e : Event) : MPState :=
  let parts := splitVersionNum e.num
  if strLt st.refParts.minor parts.minor then
    { st with
        minors := st.minors ++ [noneNat2nan (date2days (dsub e.date st.prevMinorDate))]
        prevMinorDate := e.date
        prevPatchDate := e.date }
  else if strLt st.refParts.patch parts.patch then
    { st with
        patches := st.patches ++ [noneNat2nan (date2days (dsub e.date st.prevPatchDate))]
        prevPatchDate := e.date }
  else st

/-- The amended specification of the group walk (reference triple fixed at the first event of the group), as a left fold over the remaining events. -/
def get_minor_patch_firstref (group : List Event) :
    List (Option ℚ) × List (Option ℚ) :=
  match group with
  | [] => ([], [])
  | e :: rest =>
    let st := rest.foldl mpStep
      { refParts := splitVersionNum e.num
        prevMinorDate := e.date
        prevPatchDate := e.date
        minors := []
        patches := [] }
    (st.minors, st.patches)

/-- Modelled from the spec: the group walk as claim C2 states it, with the
reference triple updated to the previous event at every step. -/
def getMinorPatchPrevRefAux :
    Triple → Option ℚ → Option ℚ → List Event →
      List (Option ℚ) × List (Option ℚ)
  | _, _, _, [] => ([], [])
  | pp, mind, patd, e :: rest =>
    let parts := splitVersionNum e.num
    if strLt pp.minor parts.minor then
      let d := noneNat2nan (date2days (dsub e.date mind))
      let (ms, ps) := getMinorPatchPrevRefAux parts e.date e.date rest
      (d :: ms, ps)
    else if strLt pp.patch parts.patch then
      let d := noneNat2nan (date2days (dsub e.date patd))
      let (ms, ps) := getMinorPatchPrevRefAux parts mind e.date rest
      (ms, d :: ps)
    else
      getMinorPatchPrevRefAux parts mind patd rest

/-- Modelled from the spec: entry point of the claim-as-written walk. -/
def get_minor_patch_prevref (group : List Event) :
    List (Option ℚ) × List (Option ℚ) :=
  match group with
  | [] => ([], [])
  | e :: rest => getMinorPatchPrevRefAux (splitVersionNum e.num) e.date e.date rest

/-- Concrete major-token group `1.0.0 → 1.2.0 → 1.1.0` on days 0, 1, 2:
the source walk fires a minor gap at `1.1.0` (its minor slot exceeds that of the
FIRST event of the group), the claim-as-written walk does not (it does not
exceed that of the PREVIOUS event). -/
def grpC : List Event :=
  [⟨some 0, Release.FIRST, ['1', '.', '0', '.', '0']⟩,
   ⟨some 86400, Release.MINOR, ['1', '.', '2', '.', '0']⟩,
   ⟨some 172800, Release.MINOR, ['1', '.', '1', '.', '0']⟩]

/-- `date_series[major_num][0][0]`: the first event date of a group. -/
def firstDateOf (g : List Event) : Option ℚ :=
  match g with
  | e :: _ => e.date
  | [] => none

/-- The `i > 0` iterations of `_build_parallel_deltatime_series`: the gap
between the first release dates of consecutive groups feeds the major bucket;
each group contributes its minor/patch gaps. -/
def parallelDeltasAux :
    Option ℚ → List (Str × List Event) →
      List (Option ℚ) × List (Option ℚ) × List (Option ℚ)
  | _, [] => ([], [], [])
  | prevFirst, (_, g) :: rest =>
    let d := noneNat2nan (date2days (dsub (firstDateOf g) prevFirst))
    let (mg, pg) := get_minor_patch_deltatimes g
    let (M, m, p) := parallelDeltasAux (firstDateOf g) rest
    (d :: M, mg ++ m, pg ++ p)

/-- `Versioning._build_parallel_deltatime_series`, over the sorted list of
(major token, sub-timeline) groups. -/
def build_parallel_deltatime_series (groups : List (Str × List Event)) :
    List (Option ℚ) × List (Option ℚ) × List (Option ℚ) :=
  match groups with
  | [] => ([], [], [])
  | (_, g) :: rest =>
    let (mg, pg) := get_minor_patch_deltatimes g
    let (M, m, p) := parallelDeltasAux (firstDateOf g) rest
    (M, mg ++ m, pg ++ p)

/-- `Versioning._build_deltatime_series`: dispatch on whether a parallel
partition exists for the project. -/
def build_deltatime_series (series : List Event)
    (parallel : List (Str × List Event)) :
    List (Option ℚ) × List (Option ℚ) × List (Option ℚ) :=
  if parallel.length > 0 then build_parallel_deltatime_series parallel
  else build_deltatime_series_seq series

/-- `Versioning._meantime_weighted_sum` for one project.  `logscale`
abstracts `utils.logscale : x ↦ log(1 + x)` (transcendental, value-opaque
here). -/
def meantime_weighted_sum (logscale : ℚ → ℚ) (series : List Event)
    (parallel : List (Str × List Event)) : ℚ :=
  if series.length < 2 then 0
  else
    let dts := build_deltatime_series series parallel
    let meanM := bucketMean dts.1
    let meanm := bucketMean dts.2.1
    let meanp := bucketMean dts.2.2
    let components := contrib 6 meanM + contrib 4 meanm + contrib 2 meanp
    round2 (s_shape (logscale components))

/-- The denominator `n` of `Versioning.score`: start at 3, subtract 1 for
each of `weighted_meantime` and `weighted_freq` that equals `0.0`. -/
def denomN (wm wf : ℚ) : ℚ :=
  3 - (if wm = 0 then 1 else 0) - (if wf = 0 then 1 else 0)

/-- The per-project arithmetic of `Versioning.score`, applied to the per-project
`weighted_count`, `weighted_meantime` and `weighted_freq`
columns: `np.round(100 * nansum([wc, wm, wf]) / n, 2)`. -/
def versioning_score (wc wm wf : ℚ) : ℚ :=
  round2 (100 * (wc + wm + wf) / denomN wm wf)

/-- `scipy.stats.zscore(col, nan_policy="omit")`, rounded at 2 decimals
(`np.round(zscore(...), 2)`): population mean and standard deviation over
the defined entries; `NaN` entries stay `NaN`.  `sqrt` abstracts the real
square root (value-opaque here). -/
def zscoreCol (sqrt : ℚ → ℚ) (v : List (Option ℚ)) : List (Option ℚ) :=
  let d := v.filterMap id
  if d.length = 0 then v
  else
    let m := d.sum / d.length
    let sd := sqrt ((d.map (fun x => (x - m) ^ 2)).sum / d.length)
    v.map (fun x => x.map (fun xv => round2 ((xv - m) / sd)))

/-- The per-cohort metrics table: the `get_json_cols` source columns and
the derived `_zscore` columns (initially empty / stale). -/
structure MetricsTable where
  cols : List (List (Option ℚ))
  zcols : List (List (Option ℚ))
  deriving DecidableEq, Repr

/-- `Versioning.compute_component_zscores`: overwrite every `_zscore`
column from its source column. -/
def compute_component_zscores (sqrt : ℚ → ℚ) (t : MetricsTable) :
    MetricsTable :=
  { t with zcols := t.cols.map (zscoreCol sqrt) }

/-- The date lookup of `_update_series`:
`repo_versions.loc[repo_versions.number == version_num, "published_at"].iloc[0]` —
the `published_at` of the first row whose version string equals `num`. -/
def firstDateFor (rows : List Row) (num : Str) : Option ℚ :=
  match rows.filter (fun r => decide (r.number = num)) with
  | r :: _ => r.published_at
  | [] => none

/-- The loop of `_build_series`: classify each row against the previous
triple and emit the event built by `_update_series`. -/
def build_series_aux (rows : List Row) :
    Triple → List Row → List Event
  | _, [] => []
  | prev, r :: rest =>
    let cur := splitVersionNum r.number
    { date := firstDateFor rows r.number
      kind := findVersionType prev cur
      num := r.number } :: build_series_aux rows cur rest

/-- `Versioning._build_series` restricted to the construction of
`date_series[id]`, on the cleaned rows sorted by `published_at`:
the seed triple is that of the first row (`repo_versions.loc[0, "number"]`). -/
def build_series (rows : List Row) : List Event :=
  match rows with
  | [] => []
  | r0 :: _ => build_series_aux rows (splitVersionNum r0.number) rows

/-- Concrete sorted row list in which the version string `1.0.0` occurs on
two rows (days 0 and 2): every `1.0.0` event gets the day-0 date. -/
def dupRows : List Row :=
  [⟨['1', '.', '0', '.', '0'], some 0⟩,
   ⟨['1', '.', '1', '.', '0'], some 86400⟩,
   ⟨['1', '.', '0', '.', '0'], some 172800⟩]

/-- Concrete single-event timeline (single-release project). -/
def singleSeries : List Event :=
  [⟨some 0, Release.FIRST, ['1', '.', '0', '.', '0']⟩]

/-- C7: the classifier checks string inequality in order
(major, then minor, then third slot) and returns FIRST on structurally
equal triples; in particular `classify(v, v) = FIRST`. -/
theorem c7_find_version_type :
    (∀ p c : Triple,
      findVersionType p c =
        if p.major ≠ c.major then Release.MAJOR
        else if p.minor ≠ c.minor then Release.MINOR
        else if p.patch ≠ c.patch then Release.PATCH
        else Release.FIRST) ∧
    (∀ v : Triple, findVersionType v v = Release.FIRST) := by
  refine ⟨fun p c => rfl, fun v => ?_⟩
  simp [findVersionType]

theorem strLt_asymm : ∀ {a b : Str}, strLt a b = true → strLt b a = false
  | [], [], h => by simp [strLt] at h
  | [], _ :: _, _ => by simp [strLt]
  | _ :: _, [], h => by simp [strLt] at h
  | a :: as, b :: bs, h => by
    simp only [strLt] at h ⊢
    by_cases h1 : a < b
    · simp [h1, lt_asymm h1]
    · by_cases h2 : b < a
      · simp [h1, h2] at h
      · simp [h1, h2] at h ⊢
        exact strLt_asymm h

theorem checkParallelAux_iff :
    ∀ (l : List Str) (n : Nat), n < 3 →
      (checkParallelAux l n = true ↔ 3 ≤ countDec l + n)
  | [], n, h => by simp [checkParallelAux, countDec]; omega
  | [a], n, h => by simp [checkParallelAux, countDec]; omega
  | a :: b :: rest, n, h => by
    by_cases hlt : strLt b a = true
    · by_cases h3 : n + 1 ≥ 3
      · simp [checkParallelAux, hlt, h3, countDec]; omega
      · have ih := checkParallelAux_iff (b :: rest) (n + 1) (by omega)
        simp [checkParallelAux, hlt, h3, countDec, ih]; omega
    · have ih := checkParallelAux_iff (b :: rest) n h
      simp [checkParallelAux, hlt, countDec, ih]

theorem countDec_eq_zero_of_chain :
    ∀ l : List Str, List.Chain' (fun x y => strLt x y = true) l → countDec l = 0
  | [], _ => rfl
  | [_], _ => rfl
  | a :: b :: rest, h => by
    have hab : strLt a b = true := (List.chain'_cons.mp h).1
    have ht := (List.chain'_cons.mp h).2
    simp [countDec, strLt_asymm hab, countDec_eq_zero_of_chain (b :: rest) ht]

/-- C3: the detector flags a timeline iff the number of strict lexical
decreases between consecutive major tokens reaches 3; when flagged it
returns exactly the distinct set of major tokens observed, otherwise the
empty list; a strictly increasing major-token sequence is never
flagged. -/
theorem c3_check_parallel_versions (series : List Event) :
    ((check_parallel_versions series).1 = true ↔ 3 ≤ countDec (majorsOf series)) ∧
    ((check_parallel_versions series).1 = true →
      (check_parallel_versions series).2.toFinset = (majorsOf series).toFinset ∧
        (check_parallel_versions series).2.Nodup) ∧
    ((check_parallel_versions series).1 = false →
      (check_parallel_versions series).2 = []) ∧
    (List.Chain' (fun x y => strLt x y = true) (majorsOf series) →
      (check_parallel_versions series).1 = false) := by
  have hiff := checkParallelAux_iff (majorsOf series) 0 (by omega)
  simp only [Nat.add_zero] at hiff
  have hded : (majorsOf series).dedup.toFinset = (majorsOf series).toFinset := by
    ext x
    simp
  by_cases hc : checkParallelAux (majorsOf series) 0 = true
  · refine ⟨?_, ?_, ?_, ?_⟩
    · simp [check_parallel_versions, hc, hiff.mp hc]
    · intro _
      constructor
      · simp [check_parallel_versions, hc, hded]
      · simp only [check_parallel_versions, hc, if_true]
        exact List.nodup_dedup _
    · intro hfalse
      exfalso
      simp [check_parallel_versions, hc] at hfalse
    · intro hchain
      exfalso
      have h3 := hiff.mp hc
      rw [countDec_eq_zero_of_chain _ hchain] at h3
      omega
  · have hc' : checkParallelAux (majorsOf series) 0 = false := by
      simpa using hc
    refine ⟨?_, ?_, ?_, ?_⟩
    · simp only [check_parallel_versions, hc', if_false]
      constructor
      · intro habs
        exact absurd habs (by simp)
      · intro h3
        exact absurd (hiff.mpr h3) (by simp [hc'])
    · intro htrue
      exfalso
      simp [check_parallel_versions, hc'] at htrue
    · intro _
      simp [check_parallel_versions, hc']
    · intro _
      simp [check_parallel_versions, hc']

theorem c3_check_parallel_versions_witness :
    (check_parallel_versions seriesB).1 = true ∧
      (check_parallel_versions seriesB).2.toFinset = (majorsOf seriesB).toFinset := by
  have h := c3_check_parallel_versions seriesB
  have hflag : (check_parallel_versions seriesB).1 = true := h.1.mpr (by decide)
  exact ⟨hflag, (h.2.1 hflag).1⟩

/-- C5: rows whose version string contains `rc`, `dev` or `nightly` are
removed, unless no row would survive, in which case the list is kept
unfiltered (all-or-nothing policy). -/
theorem c5_clean_version_data (rows : List Row) :
    cleanVersionData rows =
      if rows.any (fun r => !hasPreMarker r.number) then
        rows.filter (fun r => !hasPreMarker r.number)
      else rows := by
  unfold cleanVersionData
  by_cases h : rows.any (fun r => !hasPreMarker r.number) = true
  · rcases List.any_eq_true.mp h with ⟨r, hr, hpr⟩
    have hmem : r ∈ rows.filter (fun r => !hasPreMarker r.number) :=
      List.mem_filter.mpr ⟨hr, hpr⟩
    have hlen : (rows.filter (fun r => !hasPreMarker r.number)).length > 0 :=
      List.length_pos.mpr (List.ne_nil_of_mem hmem)
    simp [h, hlen]
  · have h0 : rows.filter (fun r => !hasPreMarker r.number) = [] := by
      rw [List.filter_eq_nil_iff]
      intro r hr hp
      exact h (List.any_eq_true.mpr ⟨r, hr, hp⟩)
    simp [h, h0]

/-- C1: the final versioning score is
`100 * (count_score + meantime_score + weighted_freq) / n` rounded to 2
decimals, where `n` starts at 3 and loses 1 for each of
`weighted_meantime` and `weighted_freq` that is exactly 0, while the
count component always stays in the denominator (`n ≥ 1`). -/
theorem c1_versioning_score (wc wm wf : ℚ) :
    versioning_score wc wm wf =
      round2 (100 * (wc + wm + wf) /
        (3 - (if wm = 0 then 1 else 0) - (if wf = 0 then 1 else 0))) ∧
    1 ≤ denomN wm wf := by
  refine ⟨rfl, ?_⟩
  unfold denomN
  split_ifs <;> norm_num

/-- C4: a gap of exactly 0 days or with an undefined timestamp becomes
unknown and never enters the mean of a bucket; a bucket with zero defined gaps
yields no mean (not zero) and contributes 0 to the weighted sum. -/
theorem c4_unknown_gap_policy :
    (∀ x : Option ℚ, noneNat2nan x = none ↔ x = none ∨ x = some 0) ∧
    (∀ d : Option ℚ, noneNat2nan (date2days (dsub d none)) = none ∧
      noneNat2nan (date2days (dsub none d)) = none) ∧
    (∀ v : List (Option ℚ), bucketMean v =
      if v.filterMap id = [] then none
      else some (round2 ((v.filterMap id).sum / ((v.filterMap id).length : ℚ)))) ∧
    (∀ v : List (Option ℚ), v.filterMap id = [] → bucketMean v = none) ∧
    (∀ w : ℚ, contrib w none = 0) := by
  refine ⟨?_, ?_, ?_, ?_, ?_⟩
  · intro x
    cases x with
    | none => simp [noneNat2nan]
    | some a =>
      by_cases h : a = 0 <;> simp [noneNat2nan, h]
  · intro d
    cases d <;> simp [dsub, date2days, noneNat2nan]
  · intro v
    cases v with
    | nil => simp [bucketMean, nanmean]
    | cons a as =>
      by_cases hd : (a :: as).filterMap id = []
      · simp [bucketMean, nanmean, hd]
      · simp [bucketMean, nanmean, hd, List.length_eq_zero]
  · intro v h
    unfold bucketMean nanmean
    simp [h]
  · intro w
    rfl

theorem c4_unknown_gap_policy_witness :
    noneNat2nan (some 0) = none ∧ bucketMean [none, none] = none ∧
      contrib 6 none = 0 := by
  have h := c4_unknown_gap_policy
  exact ⟨(h.1 (some 0)).mpr (Or.inr rfl), h.2.2.2.1 [none, none] rfl, h.2.2.2.2 6⟩

/-- C8: a timeline with fewer than 2 events gives
`weighted_meantime = 0.0`, and that zero removes the mean-time component
from the averaging denominator `n` of the final score. -/
theorem c8_single_release_meantime (logscale : ℚ → ℚ) (series : List Event)
    (parallel : List (Str × List Event)) (wf : ℚ)
    (h : series.length < 2) :
    meantime_weighted_sum logscale series parallel = 0 ∧
    denomN (meantime_weighted_sum logscale series parallel) wf =
      if wf = 0 then 1 else 2 := by
  have h0 : meantime_weighted_sum logscale series parallel = 0 := by
    unfold meantime_weighted_sum
    simp [h]
  refine ⟨h0, ?_⟩
  rw [h0]
  by_cases hwf : wf = 0 <;> simp [denomN, hwf] <;> norm_num

theorem c8_single_release_meantime_witness :
    meantime_weighted_sum id singleSeries [] = 0 ∧
      denomN (meantime_weighted_sum id singleSeries []) 5 = 2 := by
  have h := c8_single_release_meantime id singleSeries [] 5 (by decide)
  refine ⟨h.1, ?_⟩
  rw [h.2]
  norm_num

/-- C2 counterexample: on the group `1.0.0 → 1.2.0 → 1.1.0` the source
walk differs from the claim-as-written walk (which compares each event to
the previous event of the group): the source fires a second minor gap at
`1.1.0`, the claimed walk fires none there. -/
theorem c2_counterexample :
    get_minor_patch_deltatimes grpC ≠ get_minor_patch_prevref grpC := by
  intro h
  have hlen : (get_minor_patch_deltatimes grpC).1.length =
      (get_minor_patch_prevref grpC).1.length := by rw [h]
  have hsrc : (get_minor_patch_deltatimes grpC).1.length = 2 := rfl
  have hclaim : (get_minor_patch_prevref grpC).1.length = 1 := rfl
  rw [hsrc, hclaim] at hlen
  exact absurd hlen (by decide)

theorem mpFold_spec :
    ∀ (l : List Event) (fp : Triple) (mind patd : Option ℚ)
      (ms ps : List (Option ℚ)),
      (l.foldl mpStep ⟨fp, mind, patd, ms, ps⟩).minors =
          ms ++ (getMinorPatchAux fp mind patd l).1 ∧
      (l.foldl mpStep ⟨fp, mind, patd, ms, ps⟩).patches =
          ps ++ (getMinorPatchAux fp mind patd l).2
  | [], fp, mind, patd, ms, ps => by simp [getMinorPatchAux]
  | e :: rest, fp, mind, patd, ms, ps => by
    by_cases h1 : strLt fp.minor (splitVersionNum e.num).minor = true
    · have ih := mpFold_spec rest fp e.date e.date
        (ms ++ [noneNat2nan (date2days (dsub e.date mind))]) ps
      simp [List.foldl_cons, mpStep, getMinorPatchAux, h1, ih.1, ih.2]
    · by_cases h2 : strLt fp.patch (splitVersionNum e.num).patch = true
      · have ih := mpFold_spec rest fp mind e.date ms
          (ps ++ [noneNat2nan (date2days (dsub e.date patd))])
        simp [List.foldl_cons, mpStep, getMinorPatchAux, h1, h2, ih.1, ih.2]
      · have ih := mpFold_spec rest fp mind patd ms ps
        simp [List.foldl_cons, mpStep, getMinorPatchAux, h1, h2, ih.1, ih.2]

/-- C2 amended: within each major-token group the walk closes a minor gap
whenever the minor slot increases relative to the FIRST event of the group
(the reference triple is set only at the first event and never updated),
measured from the previous minor-transition date, and otherwise closes a
patch gap whenever the patch slot increases relative to the first event,
measured from the previous patch-transition date; a minor firing resets
both reference dates, a patch firing resets the patch date. -/
theorem c2_get_minor_patch_firstref (group : List Event) :
    get_minor_patch_deltatimes group = get_minor_patch_firstref group := by
  cases group with
  | nil => rfl
  | cons e rest =>
    have h := mpFold_spec rest (splitVersionNum e.num) e.date e.date [] []
    simp [get_minor_patch_deltatimes, get_minor_patch_firstref, h.1, h.2]

/-- C9: re-running the z-score normalization over an unchanged cohort
reproduces the same z-score columns (the source columns are read-only for
it, and the z-columns do not feed back). -/
theorem c9_zscore_idempotent (sqrt : ℚ → ℚ) (t : MetricsTable) :
    compute_component_zscores sqrt (compute_component_zscores sqrt t) =
      compute_component_zscores sqrt t := by
  simp [compute_component_zscores]

theorem build_series_aux_map (rows : List Row) :
    ∀ (l : List Row) (prev : Triple),
      (build_series_aux rows prev l).map (fun e => (e.date, e.num)) =
        l.map (fun r => (firstDateFor rows r.number, r.number))
  | [], _ => rfl
  | r :: rest, prev => by
    simp [build_series_aux,
      build_series_aux_map rows rest (splitVersionNum r.number)]

/-- C10: every emitted event carries the `published_at` of the first row,
in sorted order, whose version string equals the version string of the event;
on a concrete row list where `1.0.0` occurs on days 0 and 2 the timeline
dates come out `[0, 1, 0]` days — all `1.0.0` events get the first
first-occurrence date and the date sequence is not ascending. -/
theorem c10_update_series_first_occurrence :
    (∀ rows : List Row,
      (build_series rows).map (fun e => (e.date, e.num)) =
        rows.map (fun r => (firstDateFor rows r.number, r.number))) ∧
    (build_series dupRows).map (fun e => e.date) =
      [some 0, some 86400, some 0] := by
  constructor
  · intro rows
    cases rows with
    | nil => rfl
    | cons r0 rest => exact build_series_aux_map (r0 :: rest) (r0 :: rest) _
  · rfl

end Versioning
